import Mathlib

/-!
Verification of the graphrag-multiagent-workspace backend.

The repository is a small Flask backend: `src/graph.py` wraps a NetworkX
undirected graph (`GraphService` with `add_node`, `add_edge`, `query_node`),
`src/agents.py` holds a stub agent (`AgentService.process_message`), and
`src/routes.py` maps three POST endpoints onto these services.

We embed the graph state shallowly: a NetworkX `Graph` keeps a dict of nodes
(each with an attribute dict) and at most one undirected edge per unordered
pair of node identifiers (each edge with an attribute dict).  We model the
node table as an association list keyed by identifier, and the edge set as a
list of `(endpoint, endpoint, attrs)` triples where a triple matches the
unordered pair it represents.  Attribute dicts become association lists with
`dict.update` semantics.
-/

namespace GraphRag

/-- An attribute mapping (a Python dict from string keys to string values). -/
abbrev Attrs : Type := List (String × String)

/-- Python dict assignment `dict[k] = v`: overwrite the first binding of `k`, or append a new one. -/
def setKey : Attrs → String → String → Attrs
  | [], k, v => [(k, v)]
  | (k', v') :: rest, k, v =>
    if k' = k then (k, v) :: rest else (k', v') :: setKey rest k v

/-- Python `old.update(new)`: fold every binding of `new` into `old`. -/
def updateAttrs (old new : Attrs) : Attrs :=
  new.foldl (fun a kv => setKey a kv.1 kv.2) old

/-- The state of `GraphService._graph`, a NetworkX undirected graph. -/
structure Graph where
  nodes : List (String × Attrs)
  edges : List (String × String × Attrs)
  deriving DecidableEq, Repr

/-- The freshly constructed empty graph. -/
def emptyGraph : Graph := { nodes := [], edges := [] }

/-- NetworkX node membership test `node_id in self._graph`. -/
def hasNode (g : Graph) (id : String) : Bool :=
  g.nodes.any (fun p => p.1 = id)

/-- NetworkX node insertion on the node table: update the attribute dict of
an existing node, or append a fresh node. -/
def addNodeList : List (String × Attrs) → String → Attrs → List (String × Attrs)
  | [], id, attrs => [(id, attrs)]
  | (k, a) :: rest, id, attrs =>
    if k = id then (k, updateAttrs a attrs) :: rest
    else (k, a) :: addNodeList rest id attrs

/-- Embedding of `GraphService.add_node(node_id, **attrs)` (graph.py lines 20-22). -/
def add_node (g : Graph) (id : String) (attrs : Attrs) : Graph :=
  { g with nodes := addNodeList g.nodes id attrs }

/-- NetworkX `add_edge` endpoint handling: a missing endpoint is appended as
a bare node with an empty attribute dict; an existing one is untouched. -/
def ensureNode (ns : List (String × Attrs)) (id : String) : List (String × Attrs) :=
  if ns.any (fun p => p.1 = id) then ns else ns ++ [(id, ([] : Attrs))]

/-- Whether the stored triple `(a, b, _)` represents the unordered pair
`{u, v}` (the graph is undirected). -/
def sameEdge (u v a b : String) : Bool :=
  (a = u && b = v) || (a = v && b = u)

/-- NetworkX edge insertion on the edge set: update the attribute dict of an
existing edge between the pair, or append a fresh edge whose attribute dict
starts empty and receives the keyword attributes. -/
def updEdgeList : List (String × String × Attrs) → String → String → Attrs →
    List (String × String × Attrs)
  | [], u, v, attrs => [(u, v, updateAttrs [] attrs)]
  | (a, b, d) :: rest, u, v, attrs =>
    if sameEdge u v a b then (a, b, updateAttrs d attrs) :: rest
    else (a, b, d) :: updEdgeList rest u v attrs

/-- Embedding of `GraphService.add_edge(source, target, **attrs)` (graph.py lines 24-26):
NetworkX auto-creates absent endpoints, then inserts or updates the edge. -/
def add_edge (g : Graph) (u v : String) (attrs : Attrs) : Graph :=
  { nodes := ensureNode (ensureNode g.nodes u) v
    edges := updEdgeList g.edges u v attrs }

/-- The dict returned by `query_node`: `exists_` is always present; `data`
and `edges` are present (`some`) exactly when the node exists. -/
structure QueryResult where
  exists_ : Bool
  data : Option Attrs
  edges : Option (List (String × String))
  deriving DecidableEq, Repr

/-- Embedding of `dict(self._graph.nodes[node_id])`: the attribute dict of the node. -/
def lookupAttrs (ns : List (String × Attrs)) (id : String) : Attrs :=
  match ns.find? (fun p => p.1 = id) with
  | some p => p.2
  | none => []

/-- Embedding of `list(self._graph.edges(node_id))`: the incident edges, with
the queried node first (NetworkX reports `(node_id, neighbour)` pairs). -/
def incidentEdges (es : List (String × String × Attrs)) (id : String) :
    List (String × String) :=
  es.filterMap (fun e =>
    if e.1 = id then some (id, e.2.1)
    else if e.2.1 = id then some (id, e.1)
    else none)

/-- Embedding of `GraphService.query_node(node_id)` (graph.py lines 28-37). -/
def query_node (g : Graph) (id : String) : QueryResult :=
  if hasNode g id then
    { exists_ := true
      data := some (lookupAttrs g.nodes id)
      edges := some (incidentEdges g.edges id) }
  else
    { exists_ := false, data := none, edges := none }

/-- The three `GraphService` operations, for stating state-transition
properties uniformly.  `query_node` performs no assignment to
`self._graph`, so its state transition is the identity. -/
inductive Op where
  | opAddNode (id : String) (attrs : Attrs)
  | opAddEdge (u v : String) (attrs : Attrs)
  | opQueryNode (id : String)
  deriving DecidableEq, Repr

/-- The graph state after one `GraphService` operation. -/
def applyOp (g : Graph) : Op → Graph
  | .opAddNode id attrs => add_node g id attrs
  | .opAddEdge u v attrs => add_edge g u v attrs
  | .opQueryNode _ => g

/-- Embedding of `AgentService.process_message(message)` (agents.py lines 17-21):
`return f"Processed: {message}"`. -/
def process_message (message : String) : String :=
  "Processed: " ++ message

/-- A JSON response body produced by one of the three route handlers. -/
inductive JsonBody where
  | errorBody (msg : String)
  | queryBody (r : QueryResult)
  | chatBody (response : String)
  | analyzeBody (summary : String) (length : Nat)
  deriving DecidableEq, Repr

/-- Embedding of the `graph_query` route (routes.py lines 12-19).  There,
`payload.get("node")` is
`none` when the field is absent; `if not node_id` also catches the empty
string. -/
def graph_query (g : Graph) (node : Option String) : Nat × JsonBody :=
  match node with
  | none => (400, .errorBody "'node' is required")
  | some s =>
    if s = "" then (400, .errorBody "'node' is required")
    else (200, .queryBody (query_node g s))

/-- Embedding of the `chat` route (routes.py lines 22-29). -/
def chat (message : Option String) : Nat × JsonBody :=
  match message with
  | none => (400, .errorBody "'message' is required")
  | some s =>
    if s = "" then (400, .errorBody "'message' is required")
    else (200, .chatBody (process_message s))

/-- Embedding of the `document_analyze` route (routes.py lines 32-38):
the `content` field defaults to the
empty string, `summary = content[:100]`. -/
def document_analyze (content : Option String) : Nat × JsonBody :=
  let c := content.getD ""
  (200, .analyzeBody (c.take 100) c.length)

/-- One inbound HTTP request to the route set, with the relevant field of
its JSON body. -/
inductive Req where
  | reqGraphQuery (node : Option String)
  | reqChat (message : Option String)
  | reqDocAnalyze (content : Option String)
  deriving DecidableEq, Repr

/-- Handling one request: the graph state afterwards and the response.
Only `graph_query` touches the graph, and only through `query_node`, which
performs no assignment; `chat` and `document_analyze` never reference it. -/
def handle (g : Graph) : Req → Graph × (Nat × JsonBody)
  | .reqGraphQuery n => (g, graph_query g n)
  | .reqChat m => (g, chat m)
  | .reqDocAnalyze c => (g, document_analyze c)

/-- The graph invariant stated by the spec, decidably: the two endpoints of every edge are
nodes of the graph. -/
def endpointsExist (g : Graph) : Bool :=
  g.edges.all (fun e => hasNode g e.1 && hasNode g e.2.1)

/-- Key dict invariant of the node table: identifiers are unique. -/
abbrev nodesNodup (g : Graph) : Prop :=
  (g.nodes.map Prod.fst).Nodup

/-- At most one stored edge per unordered pair of identifiers. -/
abbrev edgesNodup (g : Graph) : Prop :=
  g.edges.Pairwise (fun e f => sameEdge e.1 e.2.1 f.1 f.2.1 = false)

/-- Number of nodes carrying identifier `id`. -/
def countNode (g : Graph) (id : String) : Nat :=
  (g.nodes.filter (fun p => p.1 = id)).length

/-- Number of stored edges between the unordered pair `{u, v}`. -/
def countEdge (g : Graph) (u v : String) : Nat :=
  (g.edges.filter (fun e => sameEdge u v e.1 e.2.1)).length

/-- Attribute dict of the edge between `{u, v}`, when one exists. -/
def lookupEdgeAttrs (es : List (String × String × Attrs)) (u v : String) :
    Option Attrs :=
  (es.find? (fun e => sameEdge u v e.1 e.2.1)).map (fun e => e.2.2)

/-! ## Helper lemmas -/

lemma any_ensureNode_self (ns : List (String × Attrs)) (id : String) :
    (ensureNode ns id).any (fun p => p.1 = id) = true := by
  unfold ensureNode
  by_cases h : ns.any (fun p => p.1 = id) <;> simp [h]

lemma any_ensureNode_mono (ns : List (String × Attrs)) (id : String)
    (f : String × Attrs → Bool) (h : ns.any f = true) :
    (ensureNode ns id).any f = true := by
  unfold ensureNode
  split
  · exact h
  · simp [List.any_append, h]

lemma hasNode_add_edge_fst (g : Graph) (u v : String) (a : Attrs) :
    hasNode (add_edge g u v a) u = true :=
  any_ensureNode_mono _ v _ (any_ensureNode_self g.nodes u)

lemma hasNode_add_edge_snd (g : Graph) (u v : String) (a : Attrs) :
    hasNode (add_edge g u v a) v = true :=
  any_ensureNode_self (ensureNode g.nodes u) v

lemma exists_mem_updEdgeList (es : List (String × String × Attrs))
    (u v : String) (a : Attrs) :
    ∃ d, (u, v, d) ∈ updEdgeList es u v a ∨ (v, u, d) ∈ updEdgeList es u v a := by
  induction es with
  | nil =>
    exact ⟨updateAttrs [] a, Or.inl (by simp [updEdgeList])⟩
  | cons e rest ih =>
    obtain ⟨x, y, d0⟩ := e
    by_cases h : sameEdge u v x y
    · have h' : (x = u ∧ y = v) ∨ (x = v ∧ y = u) := by
        simpa [sameEdge] using h
      rcases h' with ⟨rfl, rfl⟩ | ⟨rfl, rfl⟩
      · exact ⟨updateAttrs d0 a, Or.inl (by simp [updEdgeList, h])⟩
      · exact ⟨updateAttrs d0 a, Or.inr (by simp [updEdgeList, h])⟩
    · obtain ⟨d, hd | hd⟩ := ih
      · exact ⟨d, Or.inl (by simp [updEdgeList, h]; right; exact hd)⟩
      · exact ⟨d, Or.inr (by simp [updEdgeList, h]; right; exact hd)⟩

lemma mem_incidentEdges_updEdgeList (es : List (String × String × Attrs))
    (u v : String) (a : Attrs) :
    (u, v) ∈ incidentEdges (updEdgeList es u v a) u := by
  obtain ⟨d, h | h⟩ := exists_mem_updEdgeList es u v a
  · exact List.mem_filterMap.2 ⟨(u, v, d), h, by simp⟩
  · refine List.mem_filterMap.2 ⟨(v, u, d), h, ?_⟩
    by_cases hvu : v = u
    · subst hvu; simp
    · simp [hvu]

lemma any_addNodeList_mono (ns : List (String × Attrs)) (id : String)
    (a : Attrs) (x : String) (h : ns.any (fun p => p.1 = x) = true) :
    (addNodeList ns id a).any (fun p => p.1 = x) = true := by
  induction ns with
  | nil => simp at h
  | cons p rest ih =>
    obtain ⟨k, b⟩ := p
    by_cases hk : k = id
    · subst hk
      simp only [addNodeList, if_pos rfl, List.any_cons] at h ⊢
      exact h
    · simp only [addNodeList, if_neg hk, List.any_cons] at h ⊢
      rcases Bool.or_eq_true_iff.1 h with h1 | h2
      · exact Bool.or_eq_true_iff.2 (Or.inl h1)
      · exact Bool.or_eq_true_iff.2 (Or.inr (ih h2))

lemma hasNode_add_node_mono (g : Graph) (id : String) (a : Attrs)
    (x : String) (h : hasNode g x = true) :
    hasNode (add_node g id a) x = true :=
  any_addNodeList_mono g.nodes id a x h

lemma hasNode_add_edge_mono (g : Graph) (u v : String) (a : Attrs)
    (x : String) (h : hasNode g x = true) :
    hasNode (add_edge g u v a) x = true :=
  any_ensureNode_mono _ v _ (any_ensureNode_mono _ u _ h)

lemma mem_updEdgeList (es : List (String × String × Attrs)) (u v : String)
    (a : Attrs) (e : String × String × Attrs) (h : e ∈ updEdgeList es u v a) :
    (∃ d, (e.1, e.2.1, d) ∈ es) ∨ (e.1 = u ∧ e.2.1 = v) := by
  induction es with
  | nil =>
    simp [updEdgeList] at h
    subst h
    exact Or.inr ⟨rfl, rfl⟩
  | cons f rest ih =>
    obtain ⟨x, y, d0⟩ := f
    by_cases hs : sameEdge u v x y
    · simp only [updEdgeList, if_pos hs, List.mem_cons] at h
      rcases h with rfl | h
      · exact Or.inl ⟨d0, List.mem_cons_self _ _⟩
      · exact Or.inl ⟨e.2.2, List.mem_cons_of_mem _ (by simpa using h)⟩
    · simp only [updEdgeList, if_neg hs, List.mem_cons] at h
      rcases h with rfl | h
      · exact Or.inl ⟨d0, List.mem_cons_self _ _⟩
      · rcases ih h with ⟨d, hd⟩ | hr
        · exact Or.inl ⟨d, List.mem_cons_of_mem _ hd⟩
        · exact Or.inr hr

lemma any_key_iff (ns : List (String × Attrs)) (id : String) :
    ns.any (fun p => p.1 = id) = true ↔ id ∈ ns.map Prod.fst := by
  simp [List.any_eq_true, List.mem_map]

lemma map_fst_addNodeList (ns : List (String × Attrs)) (id : String) (a : Attrs) :
    (addNodeList ns id a).map Prod.fst =
      if ns.any (fun p => p.1 = id) then ns.map Prod.fst
      else ns.map Prod.fst ++ [id] := by
  induction ns with
  | nil => simp [addNodeList]
  | cons p rest ih =>
    obtain ⟨k, b⟩ := p
    by_cases hk : k = id
    · subst hk
      simp [addNodeList]
    · simp only [addNodeList, if_neg hk, List.map_cons, List.any_cons, ih]
      simp only [hk, decide_False, Bool.false_or]
      split <;> simp

lemma filter_addNodeList_length (ns : List (String × Attrs)) (id : String)
    (a : Attrs) (h : (ns.map Prod.fst).Nodup) :
    ((addNodeList ns id a).filter (fun p => p.1 = id)).length = 1 := by
  induction ns with
  | nil => simp [addNodeList]
  | cons p rest ih =>
    obtain ⟨k, b⟩ := p
    simp only [List.map_cons, List.nodup_cons] at h
    by_cases hk : k = id
    · subst hk
      have hnil : rest.filter (fun p => p.1 = k) = [] := by
        rw [List.filter_eq_nil_iff]
        intro q hq hq'
        exact h.1 (by
          rw [List.mem_map]
          exact ⟨q, hq, by simpa using hq'⟩)
      simp [addNodeList, List.filter_cons, hnil]
    · simp [addNodeList, hk, List.filter_cons, ih h.2]

lemma nodesNodup_add_node (g : Graph) (id : String) (a : Attrs)
    (h : nodesNodup g) : nodesNodup (add_node g id a) := by
  unfold nodesNodup at h ⊢
  show ((addNodeList g.nodes id a).map Prod.fst).Nodup
  rw [map_fst_addNodeList]
  split
  · exact h
  · rename_i hany
    rw [List.nodup_append]
    refine ⟨h, List.nodup_singleton id, ?_⟩
    intro x hx hx'
    rw [List.mem_singleton] at hx'
    subst hx'
    exact hany ((any_key_iff g.nodes x).2 hx)

lemma length_addNodeList_of_mem (ns : List (String × Attrs)) (id : String)
    (a : Attrs) (h : ns.any (fun p => p.1 = id) = true) :
    (addNodeList ns id a).length = ns.length := by
  have hm := congrArg List.length (map_fst_addNodeList ns id a)
  simpa [h] using hm

lemma lookupAttrs_cons_neg (k : String) (b : Attrs)
    (rest : List (String × Attrs)) (id : String) (h : ¬(k = id)) :
    lookupAttrs ((k, b) :: rest) id = lookupAttrs rest id := by
  simp [lookupAttrs, List.find?_cons, h]

lemma lookupAttrs_addNodeList (ns : List (String × Attrs)) (id : String)
    (a : Attrs) (h : ns.any (fun p => p.1 = id) = true) :
    lookupAttrs (addNodeList ns id a) id = updateAttrs (lookupAttrs ns id) a := by
  induction ns with
  | nil => simp at h
  | cons p rest ih =>
    obtain ⟨k, b⟩ := p
    by_cases hk : k = id
    · subst hk
      simp [addNodeList, lookupAttrs, List.find?_cons]
    · have h' : rest.any (fun p => p.1 = id) = true := by
        simp only [List.any_cons] at h
        rcases Bool.or_eq_true_iff.1 h with h1 | h2
        · exact absurd (by simpa using h1) hk
        · exact h2
      rw [addNodeList, if_neg hk,
          lookupAttrs_cons_neg k b (addNodeList rest id a) id hk,
          lookupAttrs_cons_neg k b rest id hk]
      exact ih h'

lemma sameEdge_refl (u v : String) : sameEdge u v u v = true := by
  simp [sameEdge]

lemma sameEdge_trans (u v a b c d : String)
    (h1 : sameEdge u v a b = true) (h2 : sameEdge u v c d = true) :
    sameEdge a b c d = true := by
  simp only [sameEdge, Bool.or_eq_true, Bool.and_eq_true, decide_eq_true_eq] at h1 h2 ⊢
  rcases h1 with ⟨rfl, rfl⟩ | ⟨rfl, rfl⟩ <;>
    rcases h2 with ⟨rfl, rfl⟩ | ⟨rfl, rfl⟩ <;> simp

lemma sameEdge_comm (u v a b : String) :
    sameEdge u v a b = sameEdge a b u v := by
  rw [Bool.eq_iff_iff]
  simp only [sameEdge, Bool.or_eq_true, Bool.and_eq_true, decide_eq_true_eq]
  constructor
  · rintro (⟨rfl, rfl⟩ | ⟨rfl, rfl⟩) <;> simp
  · rintro (⟨rfl, rfl⟩ | ⟨rfl, rfl⟩) <;> simp

lemma filter_updEdgeList_length (es : List (String × String × Attrs))
    (u v : String) (a : Attrs)
    (h : es.Pairwise (fun e f => sameEdge e.1 e.2.1 f.1 f.2.1 = false)) :
    ((updEdgeList es u v a).filter (fun e => sameEdge u v e.1 e.2.1)).length = 1 := by
  induction es with
  | nil => simp [updEdgeList, List.filter_cons, sameEdge_refl]
  | cons f rest ih =>
    obtain ⟨x, y, d0⟩ := f
    rw [List.pairwise_cons] at h
    by_cases hs : sameEdge u v x y
    · have hnil : rest.filter (fun e => sameEdge u v e.1 e.2.1) = [] := by
        rw [List.filter_eq_nil_iff]
        intro q hq hq'
        have : sameEdge x y q.1 q.2.1 = true :=
          sameEdge_trans u v x y q.1 q.2.1 hs (by simpa using hq')
        rw [h.1 q hq] at this
        exact Bool.false_ne_true this
      simp [updEdgeList, hs, List.filter_cons, hnil]
    · simp [updEdgeList, hs, List.filter_cons, ih h.2]

lemma edgesNodup_updEdgeList (es : List (String × String × Attrs))
    (u v : String) (a : Attrs)
    (h : es.Pairwise (fun e f => sameEdge e.1 e.2.1 f.1 f.2.1 = false)) :
    (updEdgeList es u v a).Pairwise
      (fun e f => sameEdge e.1 e.2.1 f.1 f.2.1 = false) := by
  induction es with
  | nil => simp [updEdgeList]
  | cons f rest ih =>
    obtain ⟨x, y, d0⟩ := f
    rw [List.pairwise_cons] at h
    by_cases hs : sameEdge u v x y
    · rw [updEdgeList, if_pos hs, List.pairwise_cons]
      exact ⟨fun q hq => h.1 q hq, h.2⟩
    · rw [updEdgeList, if_neg hs, List.pairwise_cons]
      refine ⟨fun q hq => ?_, ih h.2⟩
      rcases mem_updEdgeList rest u v a q hq with ⟨d, hd⟩ | ⟨h1, h2⟩
      · exact h.1 (q.1, q.2.1, d) hd
      · rw [h1, h2, ← sameEdge_comm]
        exact Bool.of_not_eq_true hs

lemma lookupEdgeAttrs_updEdgeList (es : List (String × String × Attrs))
    (u v : String) (a d : Attrs) (h : lookupEdgeAttrs es u v = some d) :
    lookupEdgeAttrs (updEdgeList es u v a) u v = some (updateAttrs d a) := by
  induction es with
  | nil => simp [lookupEdgeAttrs] at h
  | cons f rest ih =>
    obtain ⟨x, y, d0⟩ := f
    by_cases hs : sameEdge u v x y
    · have hd : d0 = d := by
        simpa [lookupEdgeAttrs, List.find?_cons, hs] using h
      subst hd
      simp [updEdgeList, hs, lookupEdgeAttrs, List.find?_cons]
    · have h' : lookupEdgeAttrs rest u v = some d := by
        simpa [lookupEdgeAttrs, List.find?_cons, hs] using h
      simpa [updEdgeList, hs, lookupEdgeAttrs, List.find?_cons] using ih h'

/-! ## Theorems -/

/-- C1.  After `add_edge(source, target)`, querying the source reports an
existing node whose incident-edge list contains the pair `(source, target)`,
and querying the target reports an existing node — even when neither
endpoint had been added before (implicit node creation). -/
theorem addEdge_query_endpoints (g : Graph) (u v : String) (a : Attrs) :
    (query_node (add_edge g u v a) u).exists_ = true ∧
    (u, v) ∈ ((query_node (add_edge g u v a) u).edges.getD []) ∧
    (query_node (add_edge g u v a) v).exists_ = true := by
  have hu := hasNode_add_edge_fst g u v a
  have hv := hasNode_add_edge_snd g u v a
  refine ⟨by simp [query_node, hu], ?_, by simp [query_node, hv]⟩
  simp only [query_node, hu, if_true, Option.getD_some]
  exact mem_incidentEdges_updEdgeList g.edges u v a

/-- C2.  Querying an identifier that is not a node of the graph returns the
result dict with `exists = false` and no `data` or `edges` keys; absence is
a normal returned value, not an error. -/
theorem query_node_absent (g : Graph) (id : String)
    (h : hasNode g id = false) :
    query_node g id = { exists_ := false, data := none, edges := none } := by
  simp [query_node, h]

theorem query_node_absent_witness :
    query_node emptyGraph "ghost" =
      { exists_ := false, data := none, edges := none } :=
  query_node_absent emptyGraph "ghost" (by decide)

/-- C3.  The invariant that the two endpoints of every edge are nodes of
the graph holds in the freshly constructed empty graph and is preserved by
every GraphService operation on any arguments; `add_edge` maintains it by
auto-creating missing endpoints. -/
theorem endpoints_invariant :
    endpointsExist emptyGraph = true ∧
    ∀ (g : Graph) (op : Op),
      endpointsExist g = true → endpointsExist (applyOp g op) = true := by
  refine ⟨rfl, fun g op h => ?_⟩
  cases op with
  | opQueryNode id => exact h
  | opAddNode id a =>
    rw [endpointsExist, List.all_eq_true] at h ⊢
    intro e he
    have hg := h e he
    rw [Bool.and_eq_true] at hg ⊢
    exact ⟨hasNode_add_node_mono g id a _ hg.1,
           hasNode_add_node_mono g id a _ hg.2⟩
  | opAddEdge u v a =>
    rw [endpointsExist, List.all_eq_true] at h ⊢
    intro e he
    rw [Bool.and_eq_true]
    rcases mem_updEdgeList g.edges u v a e he with ⟨d, hd⟩ | ⟨h1, h2⟩
    · have hg := h _ hd
      rw [Bool.and_eq_true] at hg
      exact ⟨hasNode_add_edge_mono g u v a _ hg.1,
             hasNode_add_edge_mono g u v a _ hg.2⟩
    · rw [h1, h2]
      exact ⟨hasNode_add_edge_fst g u v a, hasNode_add_edge_snd g u v a⟩

theorem endpoints_invariant_witness :
    endpointsExist
      (applyOp (add_edge emptyGraph "a" "b" []) (Op.opAddEdge "b" "c" [])) =
      true :=
  endpoints_invariant.2 (add_edge emptyGraph "a" "b" [])
    (Op.opAddEdge "b" "c" []) (by decide)

/-- C4.  AgentStub processing is the deterministic prefix-tagged
transformation of its input, and the chat route on the body
with message "hi" answers 200 with response "Processed: hi". -/
theorem process_message_spec :
    (∀ m : String, process_message m = "Processed: " ++ m) ∧
    chat (some "hi") = (200, JsonBody.chatBody "Processed: hi") :=
  ⟨fun _ => rfl, by decide⟩

/-- C5.  The graph-query route answers 400 with the fixed error payload
when the node field is missing or empty, and otherwise answers 200 with
the `query_node` result verbatim. -/
theorem graph_query_spec (g : Graph) :
    graph_query g none = (400, JsonBody.errorBody "'node' is required") ∧
    graph_query g (some "") = (400, JsonBody.errorBody "'node' is required") ∧
    ∀ s : String, s ≠ "" →
      graph_query g (some s) = (200, JsonBody.queryBody (query_node g s)) := by
  refine ⟨rfl, by simp [graph_query], fun s hs => by simp [graph_query, hs]⟩

theorem graph_query_spec_witness :
    graph_query emptyGraph none =
      (400, JsonBody.errorBody "'node' is required") ∧
    graph_query emptyGraph (some "n") =
      (200, JsonBody.queryBody (query_node emptyGraph "n")) := by
  have h := graph_query_spec emptyGraph
  exact ⟨h.1, h.2.2 "n" (by decide)⟩

set_option maxRecDepth 4000 in
/-- C6.  The document-analyze route always answers 200 with the first 100
characters of the content (defaulting to empty) and its full length; on a
content of 250 characters the summary has exactly 100 characters and the
length is 250. -/
theorem document_analyze_spec :
    (∀ c : String,
      document_analyze (some c) = (200, JsonBody.analyzeBody (c.take 100) c.length)) ∧
    document_analyze none = (200, JsonBody.analyzeBody "" 0) ∧
    document_analyze (some (String.mk (List.replicate 250 'x'))) =
      (200, JsonBody.analyzeBody (String.mk (List.replicate 100 'x')) 250) ∧
    (String.mk (List.replicate 100 'x')).length = 100 :=
  ⟨fun _ => rfl, rfl, by decide, by decide⟩

/-- C7.  With distinct node identifiers, adding a node twice leaves exactly
one node for that identifier, and adding an existing identifier keeps the
node count and merges the new attributes into the attribute dict of the
existing node instead of creating a second node. -/
theorem addNode_idempotent (g : Graph) (id : String) (a : Attrs)
    (hnd : nodesNodup g) :
    countNode (add_node (add_node g id []) id []) id = 1 ∧
    (hasNode g id = true →
      (add_node g id a).nodes.length = g.nodes.length ∧
      lookupAttrs (add_node g id a).nodes id =
        updateAttrs (lookupAttrs g.nodes id) a) := by
  constructor
  · exact filter_addNodeList_length (add_node g id []).nodes id []
      (nodesNodup_add_node g id [] hnd)
  · intro hmem
    exact ⟨length_addNodeList_of_mem g.nodes id a hmem,
           lookupAttrs_addNodeList g.nodes id a hmem⟩

theorem addNode_idempotent_witness :
    countNode
      (add_node (add_node (add_node emptyGraph "n" [("p", "q")]) "n" []) "n" [])
      "n" = 1 ∧
    (add_node (add_node emptyGraph "n" [("p", "q")]) "n" [("c", "d")]).nodes.length =
      (add_node emptyGraph "n" [("p", "q")]).nodes.length ∧
    lookupAttrs
      (add_node (add_node emptyGraph "n" [("p", "q")]) "n" [("c", "d")]).nodes
      "n" =
      updateAttrs
        (lookupAttrs (add_node emptyGraph "n" [("p", "q")]).nodes "n")
        [("c", "d")] := by
  have h := addNode_idempotent (add_node emptyGraph "n" [("p", "q")]) "n"
    [("c", "d")] (by decide)
  exact ⟨h.1, (h.2 (by decide)).1, (h.2 (by decide)).2⟩

/-- C8.  With at most one stored edge per unordered pair, adding an edge
over a pair that already has one leaves exactly one edge between that pair,
merging the new attributes into the attribute dict of the existing edge,
and the no-parallel-edges property is preserved. -/
theorem addEdge_no_parallel (g : Graph) (u v : String) (a : Attrs)
    (hed : edgesNodup g) :
    countEdge (add_edge g u v a) u v = 1 ∧
    (∀ d : Attrs, lookupEdgeAttrs g.edges u v = some d →
      lookupEdgeAttrs (add_edge g u v a).edges u v = some (updateAttrs d a)) ∧
    edgesNodup (add_edge g u v a) :=
  ⟨filter_updEdgeList_length g.edges u v a hed,
   fun d hd => lookupEdgeAttrs_updEdgeList g.edges u v a d hd,
   edgesNodup_updEdgeList g.edges u v a hed⟩

theorem addEdge_no_parallel_witness :
    countEdge
      (add_edge (add_edge emptyGraph "a" "b" [("w", "1")]) "b" "a" [("w", "2")])
      "b" "a" = 1 ∧
    lookupEdgeAttrs
      (add_edge (add_edge emptyGraph "a" "b" [("w", "1")]) "b" "a"
        [("w", "2")]).edges
      "b" "a" = some (updateAttrs [("w", "1")] [("w", "2")]) ∧
    edgesNodup
      (add_edge (add_edge emptyGraph "a" "b" [("w", "1")]) "b" "a"
        [("w", "2")]) := by
  have h := addEdge_no_parallel (add_edge emptyGraph "a" "b" [("w", "1")])
    "b" "a" [("w", "2")] (by decide)
  exact ⟨h.1, h.2.1 [("w", "1")] (by decide), h.2.2⟩

/-- C10.  Handling any of the three routes leaves the graph unchanged, and
the `query_node` operation is the identity on the graph state. -/
theorem handlers_preserve_graph :
    (∀ (g : Graph) (r : Req), (handle g r).1 = g) ∧
    (∀ (g : Graph) (id : String), applyOp g (Op.opQueryNode id) = g) :=
  ⟨fun g r => by cases r <;> rfl, fun _ _ => rfl⟩

end GraphRag
